import Mathlib

/-!
# MooLite authoritative server — shallow embedding

A shallow embedding of the authoritative world simulation in `src/server.js`
(MooLite).  JavaScript numbers are modelled as real numbers; `Math.hypot`,
`Math.min`, `Math.max` and `Math.floor` are modelled by `Real.sqrt`, `min`,
`max` and `Int.floor`.  The `players` object is modelled as a list in key
insertion order (the iteration order of `for (const oid in state.players)`
for non-index string keys).  Calls to `Math.random()` and `Date.now()` are
modelled as explicit parameters.  Message fields that can be absent in a
JSON payload and that the handler uses without a default are modelled with
`Option`; arithmetic on a possibly-absent number goes through `JVal`, which
has JavaScript's `NaN` (every comparison with `NaN` is false).
-/

namespace Moo

/-- World bounds (`const WORLD = { W: 3000, H: 2000 }`). -/
def W : ℝ := 3000

/-- World bounds (`const WORLD = { W: 3000, H: 2000 }`). -/
def H : ℝ := 2000

/-- Constant `const PLAYER_SPEED = 220`. -/
def PLAYER_SPEED : ℝ := 220

/-- Constant `const ACTION_RANGE = 80`. -/
def ACTION_RANGE : ℝ := 80

/-- Constant `const RES_NODE_TYPES = ["tree","rock","berry","wood"]`. -/
def RES_NODE_TYPES : List String := ["tree", "rock", "berry", "wood"]

/-- Helper `function clamp(v,a,b)` returning `Math.max(a, Math.min(b, v))`. -/
noncomputable def clamp (v a b : ℝ) : ℝ := max a (min b v)

/-- The function `Math.hypot(x,y)`: Euclidean norm. -/
noncomputable def hypot (x y : ℝ) : ℝ := Real.sqrt (x ^ 2 + y ^ 2)

/-- Player inventory `{wood, stone, food}`. -/
structure Inv where
  wood : ℝ
  stone : ℝ
  food : ℝ

/-- A player record (the fields of `createPlayer` that the handlers read). -/
structure Player where
  id : String
  name : String
  x : ℝ
  y : ℝ
  hp : ℝ
  kills : ℝ
  inv : Inv

/-- A resource node (`seedNodes`). -/
structure RNode where
  id : String
  type : String
  x : ℝ
  y : ℝ
  hp : ℝ
  maxHp : ℝ
  respawnAt : ℝ

/-- A placed structure.  `x`/`y` keep the raw optional payload fields
(`msg.x` may be absent in a JSON payload and is then stored as
`undefined`). -/
structure Building where
  id : String
  kind : String
  x : Option ℝ
  y : Option ℝ
  owner : String

/-- The authoritative state `{players, nodes, buildings}`. -/
structure GameState where
  players : List Player
  nodes : List RNode
  buildings : List Building

/-- The field `keys` (up/down/left/right flags) of an `input` message. -/
structure Keys where
  up : Bool
  down : Bool
  left : Bool
  right : Bool

/-- Client messages routed to `handleClientMessage` (everything but `join`,
which is handled at the connection layer). -/
inductive ClientMsg where
  | input (keys : Keys) (dt : Option ℝ)
  | chat (text : String)
  | place (kind : Option String) (x y : Option ℝ)
  | action (action : String) (x y : ℝ)
  | setName (name : Option String)
  | ping

/-- A JavaScript numeric value: a real number or `NaN`. -/
inductive JVal where
  | num (v : ℝ)
  | nan

/-- Subtraction of a possibly-absent field from a number:
`a - undefined` is `NaN`. -/
def jsub (a : ℝ) : Option ℝ → JVal
  | some b => .num (a - b)
  | none => .nan

/-- The function `Math.hypot` on JavaScript values: `NaN` if either argument is. -/
noncomputable def jhypot : JVal → JVal → JVal
  | .num a, .num b => .num (hypot a b)
  | .num _, .nan => .nan
  | .nan, _ => .nan

/-- Comparison `a > r` for a JavaScript value: comparisons with `NaN` are false. -/
def jgt : JVal → ℝ → Prop
  | .num a, r => a > r
  | .nan, _ => False

/-- Read `player.inv[k] || 0`: keyed inventory read, `0` for an unknown key. -/
def invGet (i : Inv) : String → ℝ
  | "wood" => i.wood
  | "stone" => i.stone
  | "food" => i.food
  | _ => 0

/-- Update `player.inv[k] -= v` for a cost key. -/
def invSub (i : Inv) (k : String) (v : ℝ) : Inv :=
  if k = "wood" then { i with wood := i.wood - v }
  else if k = "stone" then { i with stone := i.stone - v }
  else if k = "food" then { i with food := i.food - v }
  else i

/-- In-place update of the entry with the given id
(object-field assignment `state.players[pid] = ...`). -/
def updateById (l : List Player) (pid : String) (f : Player → Player) : List Player :=
  l.map fun q => if q.id = pid then f q else q

/-- Lookup `state.players[pid]` (first entry with that id). -/
def findPlayer (l : List Player) (pid : String) : Option Player :=
  l.find? fun q => q.id == pid

/-- Default `msg.dt || 100`: absent and `0` both fall back to the default. -/
noncomputable def jsOrNum (x : Option ℝ) (d : ℝ) : ℝ :=
  match x with
  | none => d
  | some v => if v = 0 then d else v

/-- Default `String(msg.name || player.name)`: absent and `""` fall back. -/
def jsOrStr (x : Option String) (d : String) : String :=
  match x with
  | none => d
  | some s => if s = "" then d else s

/-- The velocity computed by the `input` branch: per-axis flag sum,
normalized by `Math.hypot(vx,vy) || 1`, scaled by `PLAYER_SPEED`. -/
noncomputable def inputVelocity (keys : Keys) : ℝ × ℝ :=
  let vy : ℝ := (if keys.up then -1 else 0) + (if keys.down then 1 else 0)
  let vx : ℝ := (if keys.left then -1 else 0) + (if keys.right then 1 else 0)
  let mag : ℝ := if hypot vx vy = 0 then 1 else hypot vx vy
  (vx / mag * PLAYER_SPEED, vy / mag * PLAYER_SPEED)

/-- The `input` branch of `handleClientMessage`. -/
noncomputable def inputStep (keys : Keys) (dt : Option ℝ) (p : Player) : Player :=
  let secs := jsOrNum dt 100 / 1000
  let v := inputVelocity keys
  { p with
    x := clamp (p.x + v.1 * secs) 0 W
    y := clamp (p.y + v.2 * secs) 0 H }

/-- The `tapMove` branch: one capped 40-unit step toward the tap point. -/
noncomputable def tapMoveStep (x y : ℝ) (p : Player) : Player :=
  let dx := x - p.x
  let dy := y - p.y
  let dist := hypot dx dy
  if dist > 0 then
    let factor := min 1 (40 / dist)
    { p with x := p.x + dx * factor, y := p.y + dy * factor }
  else p

/-- The build cost table:
`kind==="wall" ? {wood:5} : {wood:10, stone:5}` as a key/value list. -/
def placeCost (kind : Option String) : List (String × ℝ) :=
  if kind = some "wall" then [("wood", 5)] else [("wood", 10), ("stone", 5)]

open Classical in
/-- The `place` branch of `handleClientMessage`.  `newId` stands for the
generated structure id `"b" + Date.now() + random suffix`. -/
noncomputable def placeStep (newId : String) (s : GameState) (p : Player)
    (kind : Option String) (x y : Option ℝ) : GameState :=
  let cost := placeCost kind
  if ∀ pr ∈ cost, invGet p.inv pr.1 ≥ pr.2 then
    if jgt (jhypot (jsub p.x x) (jsub p.y y)) ACTION_RANGE then s
    else
      let p' := { p with inv := cost.foldl (fun i pr => invSub i pr.1 pr.2) p.inv }
      { s with
        players := updateById s.players p.id fun _ => p'
        buildings := s.buildings ++
          [{ id := newId
             kind := if kind = some "wall" then "wall" else "camp"
             x := x, y := y, owner := p.id }] }
  else s

/-- The guard of the attack loop: skip the actor
(`oid === player.id`), then `Math.hypot(other.x - mx, other.y - my) < 40`. -/
noncomputable def attackQual (selfId : String) (mx my : ℝ) (q : Player) : Prop :=
  q.id ≠ selfId ∧ hypot (q.x - mx) (q.y - my) < 40

/-- The guard of the harvest loop: `node.hp > 0`, click within 50 of the
node, actor within `ACTION_RANGE` of the node. -/
noncomputable def nodeQual (actor : Player) (mx my : ℝ) (n : RNode) : Prop :=
  n.hp > 0 ∧ hypot (n.x - mx) (n.y - my) < 50 ∧
    hypot (actor.x - n.x) (actor.y - n.y) < ACTION_RANGE

/-- The body of the attack hit: 20 damage, and on `hp ≤ 0` the kill
bookkeeping.  Returns the updated attacker and the updated victim.
`rx`, `ry` are the two `Math.random()` draws for the victim's respawn
position. -/
noncomputable def resolveHit (rx ry : ℝ) (attacker victim : Player) : Player × Player :=
  let v := { victim with hp := victim.hp - 20 }
  if v.hp ≤ 0 then
    let dropWood := min (5 : ℝ) v.inv.wood
    ({ attacker with
        kills := attacker.kills + 1
        inv := { attacker.inv with
                   wood := attacker.inv.wood + ((⌊dropWood / 2⌋ : ℤ) : ℝ) } },
     { v with
        hp := 100
        inv := { v.inv with wood := max 0 (v.inv.wood - dropWood) }
        x := rx * W, y := ry * H })
  else (attacker, v)

/-- The body of a harvest hit: 15 damage, and on depletion the type-keyed
yield plus the respawn schedule.  Returns the actor's updated inventory and
the updated node. -/
noncomputable def harvestNode (now : ℝ) (inv : Inv) (n : RNode) : Inv × RNode :=
  let n1 := { n with hp := n.hp - 15 }
  if n1.hp ≤ 0 then
    let i1 := if n.type = "tree" then { inv with wood := inv.wood + 5 } else inv
    let i2 := if n.type = "rock" then { i1 with stone := i1.stone + 3 } else i1
    let i3 := if n.type = "berry" then { i2 with food := i2.food + 4 } else i2
    let i4 := if n.type = "wood" then { i3 with wood := i3.wood + 8 } else i3
    (i4, { n1 with respawnAt := now + 30000, hp := 0 })
  else (inv, n1)

open Classical in
/-- A `for … of`/`for … in` loop that applies `f` to the first element
satisfying `P` and then returns (the `return` inside the loop), or falls
through with `none`. -/
noncomputable def scanFirst {α β : Type} (P : α → Prop) (f : α → α × β) :
    List α → Option (List α × β)
  | [] => none
  | a :: rest =>
    if P a then
      some ((f a).1 :: rest, (f a).2)
    else
      (scanFirst P f rest).map fun pr => (a :: pr.1, pr.2)

/-- The attack loop over `state.players`: first qualifying other player is
hit; returns the updated player list and the updated attacker. -/
noncomputable def scanPlayers (p : Player) (mx my rx ry : ℝ)
    (l : List Player) : Option (List Player × Player) :=
  scanFirst (attackQual p.id mx my)
    (fun q => ((resolveHit rx ry p q).2, (resolveHit rx ry p q).1)) l

/-- The harvest loop over `state.nodes`: first qualifying node is hit;
returns the updated node list and the actor's updated inventory. -/
noncomputable def scanNodes (p : Player) (mx my now : ℝ)
    (l : List RNode) : Option (List RNode × Inv) :=
  scanFirst (nodeQual p mx my)
    (fun n => ((harvestNode now p.inv n).2, (harvestNode now p.inv n).1)) l

/-- The `click` action: attack the first other player in range, else
harvest the first qualifying node, else nothing. -/
noncomputable def clickStep (now rx ry : ℝ) (s : GameState) (p : Player)
    (mx my : ℝ) : GameState :=
  match scanPlayers p mx my rx ry s.players with
  | some (ps, a') => { s with players := updateById ps p.id fun _ => a' }
  | none =>
    match scanNodes p mx my now s.nodes with
    | some (ns, inv') =>
      { s with
        nodes := ns
        players := updateById s.players p.id fun _ => { p with inv := inv' } }
    | none => s

/-- The handler `handleClientMessage(player, msg)`.  `now` models `Date.now()`, `rx`/`ry`
the `Math.random()` draws of the click branch, `newId` the generated
structure id.  The `chat` branch only broadcasts and leaves the state
unchanged. -/
noncomputable def handleClientMessage (now rx ry : ℝ) (newId : String)
    (s : GameState) (pid : String) (msg : ClientMsg) : GameState :=
  match findPlayer s.players pid with
  | none => s
  | some p =>
    match msg with
    | .input keys dt =>
      { s with players := updateById s.players pid (inputStep keys dt) }
    | .chat _ => s
    | .place kind x y => placeStep newId s p kind x y
    | .action a mx my =>
      if a = "click" then clickStep now rx ry s p mx my
      else if a = "tapMove" then
        { s with players := updateById s.players pid (tapMoveStep mx my) }
      else s
    | .setName n =>
      { s with
        players := updateById s.players pid fun q =>
          { q with name := (jsOrStr n q.name).take 16 } }
    | .ping => s

/-- The `ws.on("message")` handler around `handleClientMessage`: an
unparseable payload (`parsed = none`, the `catch`), an unbound session
(`pid = none`) and an unknown player id all leave the state unchanged. -/
noncomputable def wsMessage (now rx ry : ℝ) (newId : String) (s : GameState)
    (pid : Option String) (parsed : Option ClientMsg) : GameState :=
  match parsed with
  | none => s
  | some msg =>
    match pid with
    | none => s
    | some pid => handleClientMessage now rx ry newId s pid msg

/-- One node of `seedNodes`: `rt`, `rxs`, `rys`, `rh`, `rm` are the five
`Math.random()` draws. -/
noncomputable def seedNode (i : ℕ) (rt rxs rys rh rm : ℝ) : RNode :=
  { id := "n" ++ toString i
    type := RES_NODE_TYPES.getD ⌊rt * 4⌋.toNat "tree"
    x := rxs * W
    y := rys * H
    hp := 30 + ((⌊rh * 50⌋ : ℤ) : ℝ)
    maxHp := 30 + ((⌊rm * 50⌋ : ℤ) : ℝ)
    respawnAt := 0 }

/-- Seeding `seedNodes()`: 80 nodes from a stream of random draws. -/
noncomputable def seedNodes (rnd : ℕ → ℝ × ℝ × ℝ × ℝ × ℝ) : List RNode :=
  (List.range 80).map fun i =>
    seedNode i (rnd i).1 (rnd i).2.1 (rnd i).2.2.1 (rnd i).2.2.2.1 (rnd i).2.2.2.2

open Classical in
/-- The body of `processRespawns` for one node: `r`, `fx`, `fy` are the
`Math.random()` draws (fallback hp, x-jitter, y-jitter). -/
noncomputable def respawnNode (nowt r fx fy : ℝ) (n : RNode) : RNode :=
  if n.hp ≤ 0 ∧ n.respawnAt ≠ 0 ∧ n.respawnAt ≤ nowt then
    { n with
      hp := if n.maxHp = 0 then 30 + ((⌊r * 50⌋ : ℤ) : ℝ) else n.maxHp
      respawnAt := 0
      x := clamp (n.x + (fx - 0.5) * 80) 0 W
      y := clamp (n.y + (fy - 0.5) * 80) 0 H }
  else n

/-- Loop `processRespawns()` over the node list, with per-node random draws. -/
noncomputable def processRespawns (nowt : ℝ) (rnd : ℕ → ℝ × ℝ × ℝ)
    (s : GameState) : GameState :=
  { s with
    nodes := s.nodes.enum.map fun pr =>
      respawnNode nowt (rnd pr.1).1 (rnd pr.1).2.1 (rnd pr.1).2.2 pr.2 }

/-- The node lifecycle invariant of the data model: exactly one of
"`hp > 0`" and "respawn timestamp set" holds.  The code stores `0` for an
unset `respawnAt` (and tests it by truthiness), so "set" means `≠ 0`. -/
def nodeLiveXorPending (n : RNode) : Prop := 0 < n.hp ↔ n.respawnAt = 0

/-- The position constraint of the data model:
`0 ≤ x ≤ W` and `0 ≤ y ≤ H`. -/
def inBounds (p : Player) : Prop := 0 ≤ p.x ∧ p.x ≤ W ∧ 0 ≤ p.y ∧ p.y ≤ H

/-! ## Basic lemmas about the numeric helpers -/

theorem hypot_nonneg (x y : ℝ) : 0 ≤ hypot x y := Real.sqrt_nonneg _

theorem hypot_lt_iff {c : ℝ} (hc : 0 < c) (x y : ℝ) :
    hypot x y < c ↔ x ^ 2 + y ^ 2 < c ^ 2 := Real.sqrt_lt' hc

theorem hypot_gt_iff {c : ℝ} (hc : 0 ≤ c) (x y : ℝ) :
    c < hypot x y ↔ c ^ 2 < x ^ 2 + y ^ 2 := Real.lt_sqrt hc

theorem hypot_eq {x y c : ℝ} (hc : 0 ≤ c) (h : x ^ 2 + y ^ 2 = c ^ 2) :
    hypot x y = c := by rw [hypot, h, Real.sqrt_sq hc]

theorem hypot_pos {x y : ℝ} (h : x ≠ 0 ∨ y ≠ 0) : 0 < hypot x y := by
  rw [hypot, Real.sqrt_pos]
  rcases h with h | h
  · have : 0 < x ^ 2 := by positivity
    nlinarith [sq_nonneg y]
  · have : 0 < y ^ 2 := by positivity
    nlinarith [sq_nonneg x]

theorem hypot_mul_right (x y c : ℝ) : hypot (x * c) (y * c) = hypot x y * |c| := by
  rw [hypot, hypot, show (x * c) ^ 2 + (y * c) ^ 2 = (x ^ 2 + y ^ 2) * c ^ 2 by ring,
    Real.sqrt_mul (by positivity), Real.sqrt_sq_eq_abs]

theorem le_clamp (v a b : ℝ) : a ≤ clamp v a b := le_max_left _ _

theorem clamp_le {a b : ℝ} (v : ℝ) (hab : a ≤ b) : clamp v a b ≤ b :=
  max_le hab (min_le_left _ _)

/-! ## Lemmas about the first-match scan -/

theorem scanFirst_eq_none {α β : Type} {P : α → Prop} {f : α → α × β}
    {l : List α} : scanFirst P f l = none ↔ ∀ a ∈ l, ¬ P a := by
  induction l with
  | nil => simp [scanFirst]
  | cons a rest ih =>
    by_cases hPa : P a
    · simp [scanFirst, hPa]
    · simp only [scanFirst, if_neg hPa, List.mem_cons]
      rw [Option.map_eq_none']
      constructor
      · intro h b hb
        rcases hb with rfl | hb
        · exact hPa
        · exact ih.mp h b hb
      · intro h
        exact ih.mpr fun b hb => h b (Or.inr hb)

theorem scanFirst_first_match {α β : Type} (P : α → Prop) (f : α → α × β)
    {pre : List α} {a : α} (post : List α)
    (hpre : ∀ b ∈ pre, ¬ P b) (ha : P a) :
    scanFirst P f (pre ++ a :: post) = some (pre ++ (f a).1 :: post, (f a).2) := by
  induction pre with
  | nil => simp [scanFirst, ha]
  | cons b rest ih =>
    have hb : ¬ P b := hpre b (List.mem_cons_self b rest)
    have ih' := ih fun c hc => hpre c (List.mem_cons_of_mem b hc)
    simp only [List.cons_append, scanFirst, if_neg hb, List.append_eq, ih',
      Option.map_some']

theorem scanFirst_eq_some {α β : Type} {P : α → Prop} {f : α → α × β}
    {l l' : List α} {b : β} (h : scanFirst P f l = some (l', b)) :
    ∃ pre a post, l = pre ++ a :: post ∧ (∀ x ∈ pre, ¬ P x) ∧ P a ∧
      l' = pre ++ (f a).1 :: post ∧ b = (f a).2 := by
  induction l generalizing l' b with
  | nil => simp [scanFirst] at h
  | cons a rest ih =>
    by_cases hPa : P a
    · simp only [scanFirst, if_pos hPa, Option.some.injEq, Prod.mk.injEq] at h
      exact ⟨[], a, rest, by simp, by simp, hPa, by simp [h.1.symm], h.2.symm⟩
    · simp only [scanFirst, if_neg hPa, Option.map_eq_some'] at h
      obtain ⟨⟨l'', b''⟩, hscan, heq⟩ := h
      cases heq
      obtain ⟨pre, x, post, rfl, hpre, hPx, rfl, rfl⟩ := ih hscan
      refine ⟨a :: pre, x, post, by simp, ?_, hPx, by simp, rfl⟩
      intro c hc
      rcases List.mem_cons.mp hc with rfl | hc
      · exact hPa
      · exact hpre c hc

/-! ## Lemmas about player lookup and update -/

theorem findPlayer_some {l : List Player} {pid : String} {p : Player}
    (h : findPlayer l pid = some p) : p ∈ l ∧ p.id = pid := by
  refine ⟨List.mem_of_find?_eq_some h, ?_⟩
  have := List.find?_some h
  simpa using this

theorem mem_updateById {l : List Player} {pid : String} {f : Player → Player}
    {q : Player} (h : q ∈ updateById l pid f) :
    ∃ r ∈ l, q = r ∨ q = f r := by
  obtain ⟨r, hr, hq⟩ := List.mem_map.mp h
  by_cases hid : r.id = pid
  · exact ⟨r, hr, Or.inr (by rw [← hq, if_pos hid])⟩
  · exact ⟨r, hr, Or.inl (by rw [← hq, if_neg hid])⟩

/-! ## The place branch: atomic rejection, exact costs -/

/-- Full behavioural case split of `placeStep`: rejection with no state
change on insufficient inventory or a firing range check, and the exact
success shape otherwise. -/
theorem placeStep_spec (newId : String) (s : GameState) (p : Player)
    (kind : Option String) (x y : Option ℝ) :
    ((∃ pr ∈ placeCost kind, invGet p.inv pr.1 < pr.2) →
      placeStep newId s p kind x y = s) ∧
    (jgt (jhypot (jsub p.x x) (jsub p.y y)) ACTION_RANGE →
      placeStep newId s p kind x y = s) ∧
    ((∀ pr ∈ placeCost kind, invGet p.inv pr.1 ≥ pr.2) →
      ¬ jgt (jhypot (jsub p.x x) (jsub p.y y)) ACTION_RANGE →
      placeStep newId s p kind x y =
        { s with
          players := updateById s.players p.id fun _ =>
            { p with inv :=
                if kind = some "wall" then
                  { p.inv with wood := p.inv.wood - 5 }
                else
                  { wood := p.inv.wood - 10, stone := p.inv.stone - 5
                    food := p.inv.food } }
          buildings := s.buildings ++
            [{ id := newId
               kind := if kind = some "wall" then "wall" else "camp"
               x := x, y := y, owner := p.id }] }) := by
  refine ⟨?_, ?_, ?_⟩
  · rintro ⟨pr, hmem, hlt⟩
    have hne : ¬ ∀ pr ∈ placeCost kind, invGet p.inv pr.1 ≥ pr.2 :=
      fun hall => absurd (hall pr hmem) (not_le.mpr hlt)
    simp only [placeStep, if_neg hne]
  · intro hgt
    by_cases henough : ∀ pr ∈ placeCost kind, invGet p.inv pr.1 ≥ pr.2
    · simp only [placeStep, if_pos henough, if_pos hgt]
    · simp only [placeStep, if_neg henough]
  · intro henough hnr
    simp only [placeStep, if_pos henough, if_neg hnr]
    by_cases hk : kind = some "wall" <;>
      simp [placeCost, invSub, hk]

/-- C6: a `place` intent is rejected with no state change at all when the
actor's inventory is insufficient for any entry of the fixed cost table
(wall: 5 wood; camp: 10 wood + 5 stone) or when the range check fires; on
success exactly the listed costs are debited and exactly one structure
with the generated id and `owner = actor` is appended. -/
theorem place_atomic_and_exact (newId : String) (s : GameState) (p : Player)
    (kind : Option String) (x y : Option ℝ) :
    ((∃ pr ∈ placeCost kind, invGet p.inv pr.1 < pr.2) →
      placeStep newId s p kind x y = s) ∧
    (jgt (jhypot (jsub p.x x) (jsub p.y y)) ACTION_RANGE →
      placeStep newId s p kind x y = s) ∧
    ((∀ pr ∈ placeCost kind, invGet p.inv pr.1 ≥ pr.2) →
      ¬ jgt (jhypot (jsub p.x x) (jsub p.y y)) ACTION_RANGE →
      placeStep newId s p kind x y =
        { s with
          players := updateById s.players p.id fun _ =>
            { p with inv :=
                if kind = some "wall" then
                  { p.inv with wood := p.inv.wood - 5 }
                else
                  { wood := p.inv.wood - 10, stone := p.inv.stone - 5
                    food := p.inv.food } }
          buildings := s.buildings ++
            [{ id := newId
               kind := if kind = some "wall" then "wall" else "camp"
               x := x, y := y, owner := p.id }] }) :=
  placeStep_spec newId s p kind x y

/-- Witness for C6: a camp build by a player holding exactly 10 wood and
5 stone at the target position succeeds and debits the inventory to zero. -/
theorem place_atomic_and_exact_witness :
    placeStep "b1" ⟨[⟨"p1", "A", 0, 0, 100, 0, ⟨10, 5, 0⟩⟩], [], []⟩
        ⟨"p1", "A", 0, 0, 100, 0, ⟨10, 5, 0⟩⟩ none (some 0) (some 0) =
      { players := [⟨"p1", "A", 0, 0, 100, 0, ⟨0, 0, 0⟩⟩]
        nodes := []
        buildings := [⟨"b1", "camp", some 0, some 0, "p1"⟩] } := by
  have h := (place_atomic_and_exact "b1"
    ⟨[⟨"p1", "A", 0, 0, 100, 0, ⟨10, 5, 0⟩⟩], [], []⟩
    ⟨"p1", "A", 0, 0, 100, 0, ⟨10, 5, 0⟩⟩ none (some 0) (some 0)).2.2
    (by intro pr hmem; fin_cases hmem <;> simp [invGet])
    (by
      have h0 : hypot (0 : ℝ) 0 = 0 := hypot_eq le_rfl (by norm_num)
      norm_num [jsub, jhypot, jgt, h0, ACTION_RANGE])
  rw [h]
  simp [updateById]

/-! ## C10 — unknown build kinds fall through to "camp" -/

/-- C10: a `place` intent whose kind is anything other than `"wall"`
(including unknown kinds and a missing field) is not rejected: it is
resolved exactly like a `"camp"` build, is charged the camp cost
(10 wood + 5 stone), and on success appends a structure of kind
`"camp"`. -/
theorem place_unknown_kind_builds_camp (newId : String) (s : GameState)
    (p : Player) (kind : Option String) (x y : Option ℝ)
    (hk : kind ≠ some "wall") :
    placeStep newId s p kind x y = placeStep newId s p (some "camp") x y ∧
    placeCost kind = [("wood", 10), ("stone", 5)] ∧
    ((∀ pr ∈ placeCost kind, invGet p.inv pr.1 ≥ pr.2) →
      ¬ jgt (jhypot (jsub p.x x) (jsub p.y y)) ACTION_RANGE →
      (placeStep newId s p kind x y).buildings =
        s.buildings ++
          [{ id := newId, kind := "camp", x := x, y := y, owner := p.id }]) := by
  have hcamp : (some "camp" : Option String) ≠ some "wall" := by simp
  refine ⟨?_, by simp [placeCost, hk], ?_⟩
  · simp only [placeStep, placeCost, if_neg hk, if_neg hcamp]
  · intro henough hnr
    rw [((placeStep_spec newId s p kind x y).2.2 henough hnr :)]
    simp [if_neg hk]

/-- Witness for C10: a `place` intent with the unknown kind `"tower"` from
a player with 10 wood and 5 stone appends a `"camp"` structure. -/
theorem place_unknown_kind_builds_camp_witness :
    (placeStep "b2" ⟨[⟨"p1", "A", 0, 0, 100, 0, ⟨10, 5, 0⟩⟩], [], []⟩
        ⟨"p1", "A", 0, 0, 100, 0, ⟨10, 5, 0⟩⟩ (some "tower")
        (some 0) (some 0)).buildings =
      [{ id := "b2", kind := "camp", x := some 0, y := some 0
         owner := "p1" }] := by
  have h := (place_unknown_kind_builds_camp "b2"
    ⟨[⟨"p1", "A", 0, 0, 100, 0, ⟨10, 5, 0⟩⟩], [], []⟩
    ⟨"p1", "A", 0, 0, 100, 0, ⟨10, 5, 0⟩⟩ (some "tower") (some 0) (some 0)
    (by simp)).2.2
    (by intro pr hmem; simp [placeCost] at hmem; rcases hmem with h | h <;>
          simp [h, invGet])
    (by
      have h0 : hypot (0 : ℝ) 0 = 0 := hypot_eq le_rfl (by norm_num)
      norm_num [jsub, jhypot, jgt, h0, ACTION_RANGE])
  rw [h]
  simp

/-! ## C4 — range comparisons -/

/-- C4 counterexample: a wall build whose actor is at Euclidean distance
exactly 80 (= `ACTION_RANGE`) from the target is *not* rejected — the
structure is appended — contradicting the claim that every range check is
a strict inequality on admission. -/
theorem build_at_exact_range_accepted :
    hypot ((0 : ℝ) - 80) ((0 : ℝ) - 0) = ACTION_RANGE ∧
    (placeStep "b1" ⟨[⟨"p1", "A", 0, 0, 100, 0, ⟨5, 0, 0⟩⟩], [], []⟩
        ⟨"p1", "A", 0, 0, 100, 0, ⟨5, 0, 0⟩⟩ (some "wall")
        (some 80) (some 0)).buildings =
      [⟨"b1", "wall", some 80, some 0, "p1"⟩] := by
  have h80 : hypot ((0 : ℝ) - 80) ((0 : ℝ) - 0) = 80 :=
    hypot_eq (by norm_num) (by norm_num)
  have h80' : hypot (-80 : ℝ) 0 = 80 := hypot_eq (by norm_num) (by norm_num)
  refine ⟨by rw [h80]; norm_num [ACTION_RANGE], ?_⟩
  have h := (placeStep_spec "b1"
    ⟨[⟨"p1", "A", 0, 0, 100, 0, ⟨5, 0, 0⟩⟩], [], []⟩
    ⟨"p1", "A", 0, 0, 100, 0, ⟨5, 0, 0⟩⟩ (some "wall") (some 80) (some 0)).2.2
    (by intro pr hmem; fin_cases hmem; simp [invGet])
    (by norm_num [jsub, jhypot, jgt, h80', ACTION_RANGE])
  rw [h]
  simp

/-- C4 (amended): the attack and harvest guards are strict Euclidean
comparisons (`< 40`, `< 50`, `< 80`), but the build range check only
rejects a distance strictly greater than 80, so a build at distance
exactly 80 is admitted (and succeeds when the inventory suffices). -/
theorem range_checks_strict_except_build :
    (∀ (selfId : String) (mx my : ℝ) (q : Player),
      attackQual selfId mx my q ↔
        q.id ≠ selfId ∧ (q.x - mx) ^ 2 + (q.y - my) ^ 2 < 40 ^ 2) ∧
    (∀ (actor : Player) (mx my : ℝ) (n : RNode),
      nodeQual actor mx my n ↔
        n.hp > 0 ∧ (n.x - mx) ^ 2 + (n.y - my) ^ 2 < 50 ^ 2 ∧
          (actor.x - n.x) ^ 2 + (actor.y - n.y) ^ 2 < 80 ^ 2) ∧
    (∀ a b x y : ℝ,
      jgt (jhypot (jsub a (some x)) (jsub b (some y))) ACTION_RANGE ↔
        (a - x) ^ 2 + (b - y) ^ 2 > 80 ^ 2) ∧
    (∀ (newId : String) (s : GameState) (p : Player) (kind : Option String)
        (x y : ℝ),
      (∀ pr ∈ placeCost kind, invGet p.inv pr.1 ≥ pr.2) →
      hypot (p.x - x) (p.y - y) = ACTION_RANGE →
      (placeStep newId s p kind (some x) (some y)).buildings =
        s.buildings ++
          [{ id := newId
             kind := if kind = some "wall" then "wall" else "camp"
             x := some x, y := some y, owner := p.id }]) := by
  refine ⟨?_, ?_, ?_, ?_⟩
  · intro selfId mx my q
    unfold attackQual
    rw [hypot_lt_iff (by norm_num : (0:ℝ) < 40)]
  · intro actor mx my n
    unfold nodeQual
    rw [hypot_lt_iff (by norm_num : (0:ℝ) < 50),
      show ACTION_RANGE = (80 : ℝ) from rfl,
      hypot_lt_iff (by norm_num : (0:ℝ) < 80)]
  · intro a b x y
    simp only [jsub, jhypot, jgt, ACTION_RANGE]
    exact hypot_gt_iff (by norm_num) _ _
  · intro newId s p kind x y henough hdist
    have hnr : ¬ jgt (jhypot (jsub p.x (some x)) (jsub p.y (some y)))
        ACTION_RANGE := by
      simp only [jsub, jhypot, jgt]
      rw [hdist]
      norm_num [ACTION_RANGE]
    rw [(placeStep_spec newId s p kind (some x) (some y)).2.2
      henough hnr]

/-- Witness for C4 (amended): a camp build at distance exactly 80
(target at `(48, 64)`, actor at the origin) is admitted. -/
theorem range_checks_strict_except_build_witness :
    (placeStep "b3" ⟨[⟨"p1", "A", 0, 0, 100, 0, ⟨10, 5, 0⟩⟩], [], []⟩
        ⟨"p1", "A", 0, 0, 100, 0, ⟨10, 5, 0⟩⟩ none (some 48) (some 64)).buildings =
      [] ++ [{ id := "b3", kind := if (none : Option String) = some "wall"
                 then "wall" else "camp"
               x := some 48, y := some 64, owner := "p1" }] :=
  range_checks_strict_except_build.2.2.2 "b3"
    ⟨[⟨"p1", "A", 0, 0, 100, 0, ⟨10, 5, 0⟩⟩], [], []⟩
    ⟨"p1", "A", 0, 0, 100, 0, ⟨10, 5, 0⟩⟩ none 48 64
    (by intro pr hmem; fin_cases hmem <;> simp [invGet])
    (hypot_eq (by norm_num [ACTION_RANGE]) (by norm_num [ACTION_RANGE]))

/-! ## Reduction lemmas for the click branch -/

theorem clickStep_attack (now rx ry : ℝ) (s : GameState) (p : Player)
    (mx my : ℝ) (pre : List Player) (v : Player) (post : List Player)
    (hsplit : s.players = pre ++ v :: post)
    (hpre : ∀ q ∈ pre, ¬ attackQual p.id mx my q)
    (hv : attackQual p.id mx my v) :
    clickStep now rx ry s p mx my =
      { s with
        players := updateById (pre ++ (resolveHit rx ry p v).2 :: post)
          p.id fun _ => (resolveHit rx ry p v).1 } := by
  have hscan : scanPlayers p mx my rx ry s.players =
      some (pre ++ (resolveHit rx ry p v).2 :: post, (resolveHit rx ry p v).1) := by
    rw [hsplit]
    exact scanFirst_first_match _ _ post hpre hv
  simp only [clickStep, scanPlayers] at hscan ⊢
  rw [hscan]

theorem scanPlayers_eq_none (p : Player) (mx my rx ry : ℝ) (l : List Player)
    (h : ∀ q ∈ l, ¬ attackQual p.id mx my q) :
    scanPlayers p mx my rx ry l = none :=
  scanFirst_eq_none.mpr h

theorem scanNodes_eq_none (p : Player) (mx my now : ℝ) (l : List RNode)
    (h : ∀ m ∈ l, ¬ nodeQual p mx my m) :
    scanNodes p mx my now l = none :=
  scanFirst_eq_none.mpr h

theorem clickStep_harvest (now rx ry : ℝ) (s : GameState) (p : Player)
    (mx my : ℝ) {pre post : List RNode} {n : RNode}
    (hnoP : ∀ q ∈ s.players, ¬ attackQual p.id mx my q)
    (hsplit : s.nodes = pre ++ n :: post)
    (hpre : ∀ m ∈ pre, ¬ nodeQual p mx my m)
    (hn : nodeQual p mx my n) :
    clickStep now rx ry s p mx my =
      { s with
        nodes := pre ++ (harvestNode now p.inv n).2 :: post
        players := updateById s.players p.id fun _ =>
          { p with inv := (harvestNode now p.inv n).1 } } := by
  have hscanP := scanPlayers_eq_none p mx my rx ry s.players hnoP
  have hscanN : scanNodes p mx my now s.nodes =
      some (pre ++ (harvestNode now p.inv n).2 :: post,
        (harvestNode now p.inv n).1) := by
    rw [hsplit]
    exact scanFirst_first_match _ _ post hpre hn
  simp only [clickStep]
  rw [hscanP, hscanN]

theorem clickStep_miss (now rx ry : ℝ) (s : GameState) (p : Player)
    (mx my : ℝ)
    (hnoP : ∀ q ∈ s.players, ¬ attackQual p.id mx my q)
    (hnoN : ∀ m ∈ s.nodes, ¬ nodeQual p mx my m) :
    clickStep now rx ry s p mx my = s := by
  have hscanP := scanPlayers_eq_none p mx my rx ry s.players hnoP
  have hscanN := scanNodes_eq_none p mx my now s.nodes hnoN
  simp only [clickStep]
  rw [hscanP, hscanN]

/-- Any membership-first decomposition: the first element of a list
satisfying a predicate. -/
theorem exists_first_split {α : Type} {P : α → Prop} {l : List α}
    (h : ∃ a ∈ l, P a) :
    ∃ pre a post, l = pre ++ a :: post ∧ (∀ b ∈ pre, ¬ P b) ∧ P a := by
  classical
  induction l with
  | nil => simp at h
  | cons a rest ih =>
    by_cases hPa : P a
    · exact ⟨[], a, rest, by simp, by simp, hPa⟩
    · have h' : ∃ b ∈ rest, P b := by
        obtain ⟨b, hb, hPb⟩ := h
        rcases List.mem_cons.mp hb with rfl | hb
        · exact absurd hPb hPa
        · exact ⟨b, hb, hPb⟩
      obtain ⟨pre, x, post, rfl, hpre, hPx⟩ := ih h'
      refine ⟨a :: pre, x, post, by simp, ?_, hPx⟩
      intro c hc
      rcases List.mem_cons.mp hc with rfl | hc
      · exact hPa
      · exact hpre c hc

/-! ## C1 — kill resolution -/

/-- C1 counterexample: attacker with 0 wood kills a victim holding 5 wood
(victim at hp 20, click at its position).  The attacker receives
`⌊min(5,5)/2⌋ = 2` wood, but the victim's wood drops from 5 to 0 — it is
debited the full capped drop of 5, not the transferred amount 2: debiting
only the transferred amount would have left `5 - ⌊min(5,5)/2⌋ = 3 ≠ 0`. -/
theorem kill_debit_counterexample :
    clickStep 0 0 0
        ⟨[⟨"p1", "A", 0, 0, 100, 0, ⟨0, 0, 0⟩⟩,
          ⟨"p2", "B", 0, 0, 20, 0, ⟨5, 0, 0⟩⟩], [], []⟩
        ⟨"p1", "A", 0, 0, 100, 0, ⟨0, 0, 0⟩⟩ 0 0 =
      ⟨[⟨"p1", "A", 0, 0, 100, 1, ⟨2, 0, 0⟩⟩,
        ⟨"p2", "B", 0, 0, 100, 0, ⟨0, 0, 0⟩⟩], [], []⟩ ∧
    (5 : ℝ) - ((⌊(min 5 5 : ℝ) / 2⌋ : ℤ) : ℝ) ≠ 0 := by
  have hfl : (⌊(5 : ℝ) / 2⌋ : ℤ) = 2 := by
    rw [Int.floor_eq_iff]
    norm_num
  constructor
  · rw [clickStep_attack 0 0 0 _ _ 0 0
      [⟨"p1", "A", 0, 0, 100, 0, ⟨0, 0, 0⟩⟩]
      ⟨"p2", "B", 0, 0, 20, 0, ⟨5, 0, 0⟩⟩ [] rfl
      (by intro q hq; simp at hq; simp [hq, attackQual])
      ⟨by simp, by
        exact (hypot_lt_iff (by norm_num) _ _).mpr (by norm_num)⟩]
    simp only [resolveHit]
    norm_num [updateById, hfl]
    decide
  · norm_num [hfl]

/-- C1 (amended): a click whose first qualifying victim (in registry
iteration order) is brought to `hp ≤ 0` increments the attacker's kill
count by exactly 1, fully heals the victim to 100, relocates it in
bounds, adds exactly `⌊min(5, victimWood)/2⌋` wood to the attacker, and
debits the victim by the full capped drop `min(5, victimWood)` — floored
at zero, so the victim's wood never goes negative. -/
theorem kill_resolution (now rx ry : ℝ) (s : GameState) (p v : Player)
    (pre post : List Player) (mx my : ℝ)
    (hsplit : s.players = pre ++ v :: post)
    (hpre : ∀ q ∈ pre, ¬ attackQual p.id mx my q)
    (hv : attackQual p.id mx my v)
    (hlow : v.hp - 20 ≤ 0)
    (hrx0 : 0 ≤ rx) (hrx1 : rx < 1) (hry0 : 0 ≤ ry) (hry1 : ry < 1) :
    clickStep now rx ry s p mx my =
      { s with
        players := updateById (pre ++ (resolveHit rx ry p v).2 :: post)
          p.id fun _ => (resolveHit rx ry p v).1 } ∧
    (resolveHit rx ry p v).1.kills = p.kills + 1 ∧
    (resolveHit rx ry p v).2.hp = 100 ∧
    (0 ≤ (resolveHit rx ry p v).2.x ∧ (resolveHit rx ry p v).2.x ≤ W ∧
      0 ≤ (resolveHit rx ry p v).2.y ∧ (resolveHit rx ry p v).2.y ≤ H) ∧
    (resolveHit rx ry p v).1.inv.wood =
      p.inv.wood + ((⌊min 5 v.inv.wood / 2⌋ : ℤ) : ℝ) ∧
    (resolveHit rx ry p v).2.inv.wood =
      max 0 (v.inv.wood - min 5 v.inv.wood) ∧
    0 ≤ (resolveHit rx ry p v).2.inv.wood := by
  have hW : (0 : ℝ) < W := by norm_num [W]
  have hH : (0 : ℝ) < H := by norm_num [H]
  refine ⟨clickStep_attack now rx ry s p mx my pre v post hsplit hpre hv,
    ?_, ?_, ⟨?_, ?_, ?_, ?_⟩, ?_, ?_, ?_⟩
  all_goals simp only [resolveHit, if_pos hlow]
  · exact mul_nonneg hrx0 hW.le
  · nlinarith
  · exact mul_nonneg hry0 hH.le
  · nlinarith
  · exact le_max_left _ _

/-- Witness for C1 (amended): concrete two-player kill; the attacker's
kill count goes from 0 to 1. -/
theorem kill_resolution_witness :
    (resolveHit (1/2) (1/2) ⟨"p1", "A", 0, 0, 100, 0, ⟨0, 0, 0⟩⟩
      ⟨"p2", "B", 0, 0, 15, 0, ⟨5, 0, 0⟩⟩).1.kills = 0 + 1 :=
  (kill_resolution 0 (1/2) (1/2)
    ⟨[⟨"p1", "A", 0, 0, 100, 0, ⟨0, 0, 0⟩⟩,
      ⟨"p2", "B", 0, 0, 15, 0, ⟨5, 0, 0⟩⟩], [], []⟩
    ⟨"p1", "A", 0, 0, 100, 0, ⟨0, 0, 0⟩⟩
    ⟨"p2", "B", 0, 0, 15, 0, ⟨5, 0, 0⟩⟩
    [⟨"p1", "A", 0, 0, 100, 0, ⟨0, 0, 0⟩⟩] [] 0 0 rfl
    (by intro q hq; simp at hq; simp [hq, attackQual])
    ⟨by simp, (hypot_lt_iff (by norm_num) _ _).mpr (by norm_num)⟩
    (by norm_num) (by norm_num) (by norm_num) (by norm_num) (by norm_num)).2.1

/-! ## C3 — click target selection -/

/-- C3 counterexample: with the attacker at `(100,100)` and a click at the
origin, the player at distance 39 (first in registry order) is damaged to
80 hp while the *nearest* in-range player, at distance 10, is untouched —
the attack resolves against the first qualifying player in iteration
order, not the nearest one. -/
theorem click_nearest_counterexample :
    (clickStep 0 0 0
        ⟨[⟨"p1", "A", 100, 100, 100, 0, ⟨0, 0, 0⟩⟩,
          ⟨"p2", "B", 39, 0, 100, 0, ⟨0, 0, 0⟩⟩,
          ⟨"p3", "C", 10, 0, 100, 0, ⟨0, 0, 0⟩⟩], [], []⟩
        ⟨"p1", "A", 100, 100, 100, 0, ⟨0, 0, 0⟩⟩ 0 0).players =
      [⟨"p1", "A", 100, 100, 100, 0, ⟨0, 0, 0⟩⟩,
       ⟨"p2", "B", 39, 0, 80, 0, ⟨0, 0, 0⟩⟩,
       ⟨"p3", "C", 10, 0, 100, 0, ⟨0, 0, 0⟩⟩] ∧
    hypot ((10 : ℝ) - 0) ((0 : ℝ) - 0) < hypot ((39 : ℝ) - 0) ((0 : ℝ) - 0) := by
  constructor
  · rw [clickStep_attack 0 0 0 _ _ 0 0
      [⟨"p1", "A", 100, 100, 100, 0, ⟨0, 0, 0⟩⟩]
      ⟨"p2", "B", 39, 0, 100, 0, ⟨0, 0, 0⟩⟩
      [⟨"p3", "C", 10, 0, 100, 0, ⟨0, 0, 0⟩⟩] rfl
      (by intro q hq; simp at hq; simp [hq, attackQual])
      ⟨by simp, (hypot_lt_iff (by norm_num) _ _).mpr (by norm_num)⟩]
    simp only [resolveHit]
    norm_num [updateById]
    decide
  · rw [show hypot ((10 : ℝ) - 0) ((0 : ℝ) - 0) = 10 from
        hypot_eq (by norm_num) (by norm_num),
      show hypot ((39 : ℝ) - 0) ((0 : ℝ) - 0) = 39 from
        hypot_eq (by norm_num) (by norm_num)]
    norm_num

/-- C3 (amended): if at least one *other* player is strictly within 40
units of the click position, 20 damage is applied to the *first* such
player in registry iteration order and the nodes are untouched; otherwise,
if some node qualifies, exactly the first qualifying node (in registry
iteration order) is harvested and the only player change is the actor's
inventory; otherwise nothing changes.  In particular a single click never
resolves both an attack and a harvest, and never more than one target. -/
theorem click_resolves_first_target (now rx ry : ℝ) (s : GameState)
    (p : Player) (mx my : ℝ) :
    ((∃ q ∈ s.players, attackQual p.id mx my q) →
      (clickStep now rx ry s p mx my).nodes = s.nodes ∧
      ∃ pre v post, s.players = pre ++ v :: post ∧
        (∀ q ∈ pre, ¬ attackQual p.id mx my q) ∧ attackQual p.id mx my v ∧
        clickStep now rx ry s p mx my =
          { s with
            players := updateById (pre ++ (resolveHit rx ry p v).2 :: post)
              p.id fun _ => (resolveHit rx ry p v).1 }) ∧
    ((¬ ∃ q ∈ s.players, attackQual p.id mx my q) →
      ((∃ m ∈ s.nodes, nodeQual p mx my m) →
        ∃ pre n post, s.nodes = pre ++ n :: post ∧
          (∀ m ∈ pre, ¬ nodeQual p mx my m) ∧ nodeQual p mx my n ∧
          clickStep now rx ry s p mx my =
            { s with
              nodes := pre ++ (harvestNode now p.inv n).2 :: post
              players := updateById s.players p.id fun _ =>
                { p with inv := (harvestNode now p.inv n).1 } }) ∧
      ((¬ ∃ m ∈ s.nodes, nodeQual p mx my m) →
        clickStep now rx ry s p mx my = s)) := by
  constructor
  · intro hex
    obtain ⟨pre, v, post, hsplit, hpre, hv⟩ := exists_first_split hex
    have hstep := clickStep_attack now rx ry s p mx my pre v post hsplit hpre hv
    exact ⟨by rw [hstep], pre, v, post, hsplit, hpre, hv, hstep⟩
  · intro hnoP
    push_neg at hnoP
    constructor
    · intro hex
      obtain ⟨pre, n, post, hsplit, hpre, hn⟩ := exists_first_split hex
      exact ⟨pre, n, post, hsplit, hpre, hn,
        clickStep_harvest now rx ry s p mx my hnoP hsplit hpre hn⟩
    · intro hnoN
      push_neg at hnoN
      exact clickStep_miss now rx ry s p mx my hnoP hnoN

/-- Witness for C3 (amended): a click with one other in-range player
leaves the node registry untouched. -/
theorem click_resolves_first_target_witness :
    (clickStep 0 0 0
        ⟨[⟨"p1", "A", 100, 100, 100, 0, ⟨0, 0, 0⟩⟩,
          ⟨"p2", "B", 5, 0, 100, 0, ⟨0, 0, 0⟩⟩],
         [⟨"n0", "tree", 0, 0, 40, 40, 0⟩], []⟩
        ⟨"p1", "A", 100, 100, 100, 0, ⟨0, 0, 0⟩⟩ 0 0).nodes =
      [⟨"n0", "tree", 0, 0, 40, 40, 0⟩] :=
  ((click_resolves_first_target 0 0 0
      ⟨[⟨"p1", "A", 100, 100, 100, 0, ⟨0, 0, 0⟩⟩,
        ⟨"p2", "B", 5, 0, 100, 0, ⟨0, 0, 0⟩⟩],
       [⟨"n0", "tree", 0, 0, 40, 40, 0⟩], []⟩
      ⟨"p1", "A", 100, 100, 100, 0, ⟨0, 0, 0⟩⟩ 0 0).1
    ⟨⟨"p2", "B", 5, 0, 100, 0, ⟨0, 0, 0⟩⟩, by simp,
      by simp, (hypot_lt_iff (by norm_num) _ _).mpr (by norm_num)⟩).1

/-! ## C7 — depletion yield granted exactly once -/

/-- C7: the type-keyed depletion yield (rock → 3 stone, tree → 5 wood,
berry → 4 food, "wood" node → 8 wood) is granted exactly at the single
click that brings the node's hp to ≤ 0: an earlier hit leaves the
inventory untouched and only lowers hp; the depleting hit grants the
yield, zeroes the hp and schedules the respawn; a depleted node
(`hp ≤ 0`) never qualifies for a harvest click; and respawn processing
strictly before the scheduled time leaves the node unchanged, so its hp
stays exactly 0. -/
theorem harvest_yield_exactly_once (now : ℝ) (inv : Inv) (n : RNode) :
    (n.hp - 15 > 0 →
      harvestNode now inv n = (inv, { n with hp := n.hp - 15 })) ∧
    (n.hp - 15 ≤ 0 →
      (harvestNode now inv n).2 = { n with hp := 0, respawnAt := now + 30000 } ∧
      (n.type = "tree" →
        (harvestNode now inv n).1 = { inv with wood := inv.wood + 5 }) ∧
      (n.type = "rock" →
        (harvestNode now inv n).1 = { inv with stone := inv.stone + 3 }) ∧
      (n.type = "berry" →
        (harvestNode now inv n).1 = { inv with food := inv.food + 4 }) ∧
      (n.type = "wood" →
        (harvestNode now inv n).1 = { inv with wood := inv.wood + 8 })) ∧
    (∀ (p : Player) (mx my : ℝ), n.hp ≤ 0 → ¬ nodeQual p mx my n) ∧
    (∀ nowt r fx fy : ℝ, nowt < n.respawnAt →
      respawnNode nowt r fx fy n = n) := by
  refine ⟨?_, ?_, ?_, ?_⟩
  · intro hpos
    have hcond : ¬ ({ n with hp := n.hp - 15 } : RNode).hp ≤ 0 := by
      simpa using not_le.mpr hpos
    simp [harvestNode, hcond]
  · intro hdep
    have hcond : ({ n with hp := n.hp - 15 } : RNode).hp ≤ 0 := by simpa using hdep
    refine ⟨by simp [harvestNode, hcond], ?_, ?_, ?_, ?_⟩ <;> intro ht <;>
      simp [harvestNode, hcond, ht]
  · intro p mx my hdep hq
    exact absurd hq.1 (not_lt.mpr hdep)
  · intro nowt r fx fy hlt
    exact if_neg fun hc => absurd hc.2.2 (not_le.mpr hlt)

/-- Witness for C7: depleting a rock node with 10 hp grants exactly
3 stone. -/
theorem harvest_yield_exactly_once_witness :
    (harvestNode 1000 ⟨0, 0, 0⟩ ⟨"n0", "rock", 0, 0, 10, 40, 0⟩).1 =
      ⟨0, 0 + 3, 0⟩ :=
  ((harvest_yield_exactly_once 1000 ⟨0, 0, 0⟩
      ⟨"n0", "rock", 0, 0, 10, 40, 0⟩).2.1 (by norm_num)).2.2.1 rfl

/-! ## Shape lemmas for whole-message steps -/

theorem placeStep_nodes (newId : String) (s : GameState) (p : Player)
    (kind : Option String) (x y : Option ℝ) :
    (placeStep newId s p kind x y).nodes = s.nodes := by
  simp only [placeStep]
  by_cases h1 : ∀ pr ∈ placeCost kind, invGet p.inv pr.1 ≥ pr.2
  · by_cases h2 : jgt (jhypot (jsub p.x x) (jsub p.y y)) ACTION_RANGE
    · rw [if_pos h1, if_pos h2]
    · rw [if_pos h1, if_neg h2]
  · rw [if_neg h1]

theorem clickStep_cases (now rx ry : ℝ) (s : GameState) (p : Player)
    (mx my : ℝ) :
    clickStep now rx ry s p mx my = s ∨
    (∃ pre v post, s.players = pre ++ v :: post ∧ attackQual p.id mx my v ∧
      clickStep now rx ry s p mx my =
        { s with
          players := updateById (pre ++ (resolveHit rx ry p v).2 :: post)
            p.id (fun _ => (resolveHit rx ry p v).1) }) ∨
    (∃ pre n post, s.nodes = pre ++ n :: post ∧ nodeQual p mx my n ∧
      clickStep now rx ry s p mx my =
        { s with
          nodes := pre ++ (harvestNode now p.inv n).2 :: post
          players := updateById s.players p.id
            (fun _ => { p with inv := (harvestNode now p.inv n).1 }) }) := by
  rcases hsp : scanPlayers p mx my rx ry s.players with _ | ⟨ps, a'⟩
  · rcases hsn : scanNodes p mx my now s.nodes with _ | ⟨ns, inv'⟩
    · left
      simp only [clickStep, hsp, hsn]
    · have hsn' := hsn
      simp only [scanNodes] at hsn'
      obtain ⟨pre, n, post, hsplit, hpre, hq, hns, hinv⟩ := scanFirst_eq_some hsn'
      right; right
      refine ⟨pre, n, post, hsplit, hq, ?_⟩
      simp only [clickStep, hsp, hsn, hns, hinv]
  · have hsp' := hsp
    simp only [scanPlayers] at hsp'
    obtain ⟨pre, v, post, hsplit, hpre, hq, hps, ha⟩ := scanFirst_eq_some hsp'
    right; left
    refine ⟨pre, v, post, hsplit, hq, ?_⟩
    simp only [clickStep, hsp, hps, ha]

theorem handleClientMessage_nodes_cases (now rx ry : ℝ) (newId : String)
    (s : GameState) (pid : String) (msg : ClientMsg) :
    (handleClientMessage now rx ry newId s pid msg).nodes = s.nodes ∨
    ∃ (inv : Inv) (pre post : List RNode) (n : RNode),
      s.nodes = pre ++ n :: post ∧ 0 < n.hp ∧
      (handleClientMessage now rx ry newId s pid msg).nodes =
        pre ++ (harvestNode now inv n).2 :: post := by
  rcases hfp : findPlayer s.players pid with _ | p
  · left; simp only [handleClientMessage, hfp]
  · cases msg with
    | input keys dt => left; simp only [handleClientMessage, hfp]
    | chat t => left; simp only [handleClientMessage, hfp]
    | place kind x y =>
      left
      simp only [handleClientMessage, hfp]
      exact placeStep_nodes newId s p kind x y
    | action a mx my =>
      by_cases ha : a = "click"
      · rcases clickStep_cases now rx ry s p mx my with hc |
          ⟨pre, v, post, _, _, hc⟩ | ⟨pre, n, post, hsplit, hq, hc⟩
        · left; simp only [handleClientMessage, hfp, if_pos ha, hc]
        · left; simp only [handleClientMessage, hfp, if_pos ha, hc]
        · right
          exact ⟨p.inv, pre, post, n, hsplit, hq.1,
            by simp only [handleClientMessage, hfp, if_pos ha, hc]⟩
      · by_cases ha2 : a = "tapMove"
        · left; simp only [handleClientMessage, hfp, if_neg ha, if_pos ha2]
        · left; simp only [handleClientMessage, hfp, if_neg ha, if_neg ha2]
    | setName nm => left; simp only [handleClientMessage, hfp]
    | ping => left; simp only [handleClientMessage, hfp]

theorem harvestNode_live_xor {now : ℝ} (hnow : 0 ≤ now) {inv : Inv}
    {n : RNode} (hlive : 0 < n.hp)
    (h : nodeLiveXorPending n ∧ 0 < n.maxHp) :
    nodeLiveXorPending (harvestNode now inv n).2 ∧
      0 < (harvestNode now inv n).2.maxHp := by
  by_cases hdep : n.hp - 15 ≤ 0
  · have hcond : ({ n with hp := n.hp - 15 } : RNode).hp ≤ 0 := by simpa using hdep
    simp only [harvestNode, if_pos hcond]
    constructor
    · unfold nodeLiveXorPending
      simp only []
      constructor
      · intro h0; exact absurd h0 (by norm_num)
      · intro h0; exact absurd h0 (by positivity)
    · exact h.2
  · have hcond : ¬ ({ n with hp := n.hp - 15 } : RNode).hp ≤ 0 := by simpa using hdep
    simp only [harvestNode, if_neg hcond]
    refine ⟨?_, h.2⟩
    unfold nodeLiveXorPending at h ⊢
    simp only []
    rw [not_le] at hcond
    exact iff_of_true (by simpa using hcond) (h.1.mp hlive)

theorem respawnNode_live_xor {nowt r fx fy : ℝ} {n : RNode}
    (h : nodeLiveXorPending n ∧ 0 < n.maxHp) :
    nodeLiveXorPending (respawnNode nowt r fx fy n) ∧
      0 < (respawnNode nowt r fx fy n).maxHp := by
  by_cases hg : n.hp ≤ 0 ∧ n.respawnAt ≠ 0 ∧ n.respawnAt ≤ nowt
  · have hm : n.maxHp ≠ 0 := ne_of_gt h.2
    simp only [respawnNode, if_pos hg, if_neg hm]
    exact ⟨iff_of_true h.2 rfl, h.2⟩
  · simp only [respawnNode, if_neg hg]
    exact h

theorem snd_mem_of_mem_enumFrom {α : Type} :
    ∀ {k : ℕ} {l : List α} {p : ℕ × α}, p ∈ l.enumFrom k → p.2 ∈ l := by
  intro k l
  induction l generalizing k with
  | nil => intro p h; simp [List.enumFrom] at h
  | cons a rest ih =>
    intro p h
    rcases List.mem_cons.mp h with rfl | h'
    · exact List.mem_cons_self _ _
    · exact List.mem_cons_of_mem _ (ih h')

/-! ## C8 — node lifecycle invariant -/

/-- C8: for every resource node, exactly one of "`hp > 0`" and "respawn
timestamp set" holds after every operation: seeding establishes the
invariant (along with `maxHp > 0`), and both intent resolution and
respawn processing preserve it. -/
theorem node_lifecycle_invariant (now rx ry nowt : ℝ) :
    (∀ (i : ℕ) (rt rxs rys rh rm : ℝ), 0 ≤ rh → 0 ≤ rm →
      nodeLiveXorPending (seedNode i rt rxs rys rh rm) ∧
        0 < (seedNode i rt rxs rys rh rm).maxHp) ∧
    (∀ (newId : String) (s : GameState) (pid : String) (msg : ClientMsg),
      0 ≤ now →
      (∀ n ∈ s.nodes, nodeLiveXorPending n ∧ 0 < n.maxHp) →
      ∀ n ∈ (handleClientMessage now rx ry newId s pid msg).nodes,
        nodeLiveXorPending n ∧ 0 < n.maxHp) ∧
    (∀ (rnd : ℕ → ℝ × ℝ × ℝ) (s : GameState),
      (∀ n ∈ s.nodes, nodeLiveXorPending n ∧ 0 < n.maxHp) →
      ∀ n ∈ (processRespawns nowt rnd s).nodes,
        nodeLiveXorPending n ∧ 0 < n.maxHp) := by
  refine ⟨?_, ?_, ?_⟩
  · intro i rt rxs rys rh rm hrh hrm
    have h1 : (0 : ℝ) ≤ ((⌊rh * 50⌋ : ℤ) : ℝ) := by
      exact_mod_cast Int.floor_nonneg.mpr (by positivity)
    have h2 : (0 : ℝ) ≤ ((⌊rm * 50⌋ : ℤ) : ℝ) := by
      exact_mod_cast Int.floor_nonneg.mpr (by positivity)
    constructor
    · unfold nodeLiveXorPending seedNode
      exact iff_of_true (by simpa using by linarith) rfl
    · simp only [seedNode]
      linarith
  · intro newId s pid msg hnow hall n hn
    rcases handleClientMessage_nodes_cases now rx ry newId s pid msg with heq |
      ⟨inv, pre, post, m, hsplit, hlive, heq⟩
    · rw [heq] at hn
      exact hall n hn
    · rw [heq] at hn
      rcases List.mem_append.mp hn with hpre | hrest
      · exact hall n (by rw [hsplit]; exact List.mem_append.mpr (Or.inl hpre))
      · have hmmem : m ∈ s.nodes := by
          rw [hsplit]
          exact List.mem_append.mpr (Or.inr (List.mem_cons_self _ _))
        rcases List.mem_cons.mp hrest with rfl | hpost
        · exact harvestNode_live_xor hnow hlive (hall m hmmem)
        · have : n ∈ s.nodes := by
            rw [hsplit]
            exact List.mem_append.mpr (Or.inr (List.mem_cons_of_mem _ hpost))
          exact hall n this
  · intro rnd s hall n hn
    simp only [processRespawns] at hn
    obtain ⟨⟨i, m⟩, hmem, rfl⟩ := List.mem_map.mp hn
    exact respawnNode_live_xor (hall m (snd_mem_of_mem_enumFrom hmem))

/-- Witness for C8: a freshly seeded node is live with an unset respawn
timestamp, and a depleting harvest at time 1000 flips it to pending. -/
theorem node_lifecycle_invariant_witness :
    nodeLiveXorPending (seedNode 0 0 0 0 (1/2) (1/2)) ∧
      0 < (seedNode 0 0 0 0 (1/2) (1/2)).maxHp :=
  (node_lifecycle_invariant 0 0 0 0).1 0 0 0 0 (1/2) (1/2)
    (by norm_num) (by norm_num)

/-! ## C9 — movement velocity normalization -/

theorem norm_scale (vx vy S : ℝ) (hS : 0 ≤ S) :
    hypot (vx / (if hypot vx vy = 0 then 1 else hypot vx vy) * S)
        (vy / (if hypot vx vy = 0 then 1 else hypot vx vy) * S) =
      if hypot vx vy = 0 then 0 else S := by
  by_cases h0 : hypot vx vy = 0
  · have hxy : vx = 0 ∧ vy = 0 := by
      have h0' := h0
      rw [hypot, Real.sqrt_eq_zero'] at h0'
      constructor <;> nlinarith [sq_nonneg vx, sq_nonneg vy]
    rw [if_pos h0, if_pos h0, hxy.1, hxy.2]
    simp [hypot]
  · have hpos : 0 < hypot vx vy := lt_of_le_of_ne (hypot_nonneg _ _) (Ne.symm h0)
    rw [if_neg h0, if_neg h0,
      show vx / hypot vx vy * S = vx * (S / hypot vx vy) by ring,
      show vy / hypot vx vy * S = vy * (S / hypot vx vy) by ring,
      hypot_mul_right, abs_of_nonneg (div_nonneg hS hpos.le),
      mul_div_cancel₀ _ (ne_of_gt hpos)]

theorem inputVelocity_hypot (keys : Keys) :
    hypot (inputVelocity keys).1 (inputVelocity keys).2 =
      if hypot ((if keys.left then (-1 : ℝ) else 0) + (if keys.right then 1 else 0))
          ((if keys.up then (-1 : ℝ) else 0) + (if keys.down then 1 else 0)) = 0
        then 0 else PLAYER_SPEED := by
  simp only [inputVelocity]
  exact norm_scale _ _ _ (by norm_num [PLAYER_SPEED])

/-- C9 counterexample: the `input` intent with both `up` and `down` set
(so at least one directional flag is set) produces the zero velocity:
the canceled direction vector is "normalized" by `hypot(0,0) || 1 = 1`,
so the magnitude is 0, not `PLAYER_SPEED`. -/
theorem velocity_cancel_counterexample :
    (⟨true, true, false, false⟩ : Keys).up = true ∧
    hypot (inputVelocity ⟨true, true, false, false⟩).1
        (inputVelocity ⟨true, true, false, false⟩).2 = 0 ∧
    (0 : ℝ) ≠ PLAYER_SPEED := by
  have h00 : hypot (0 : ℝ) 0 = 0 := hypot_eq le_rfl (by norm_num)
  refine ⟨rfl, ?_, by norm_num [PLAYER_SPEED]⟩
  have := inputVelocity_hypot ⟨true, true, false, false⟩
  simpa [h00] using this

/-- C9 (amended): when the combined direction vector is nonzero — the two
vertical flags are not equal or the two horizontal flags are not equal —
the velocity produced by the `input` branch has magnitude exactly
`PLAYER_SPEED` (220); the magnitude never exceeds `PLAYER_SPEED` for any
flag combination (so diagonal motion never exceeds axial motion), and the
new position is the clamp of `old + velocity·dt` to the world bounds. -/
theorem move_speed_normalized (keys : Keys) (dt : Option ℝ) (p : Player)
    (h : keys.up ≠ keys.down ∨ keys.left ≠ keys.right) :
    hypot (inputVelocity keys).1 (inputVelocity keys).2 = PLAYER_SPEED ∧
    (∀ keys' : Keys,
      hypot (inputVelocity keys').1 (inputVelocity keys').2 ≤ PLAYER_SPEED) ∧
    (inputStep keys dt p).x =
      clamp (p.x + (inputVelocity keys).1 * (jsOrNum dt 100 / 1000)) 0 W ∧
    (inputStep keys dt p).y =
      clamp (p.y + (inputVelocity keys).2 * (jsOrNum dt 100 / 1000)) 0 H := by
  refine ⟨?_, ?_, rfl, rfl⟩
  · rw [inputVelocity_hypot keys]
    have hne : ((if keys.left then (-1 : ℝ) else 0) +
        (if keys.right then 1 else 0)) ≠ 0 ∨
        ((if keys.up then (-1 : ℝ) else 0) + (if keys.down then 1 else 0)) ≠ 0 := by
      rcases h with h | h
      · right
        cases hu : keys.up <;> cases hd : keys.down <;>
          rw [hu, hd] at h <;> simp at h ⊢
      · left
        cases hl : keys.left <;> cases hr : keys.right <;>
          rw [hl, hr] at h <;> simp at h ⊢
    rw [if_neg (ne_of_gt (hypot_pos hne))]
  · intro keys'
    rw [inputVelocity_hypot keys']
    split_ifs
    all_goals norm_num [PLAYER_SPEED]

/-- Witness for C9 (amended): pressing only `up` yields a velocity of
magnitude exactly 220. -/
theorem move_speed_normalized_witness :
    hypot (inputVelocity ⟨true, false, false, false⟩).1
        (inputVelocity ⟨true, false, false, false⟩).2 = PLAYER_SPEED :=
  (move_speed_normalized ⟨true, false, false, false⟩ none
    ⟨"p1", "A", 0, 0, 100, 0, ⟨0, 0, 0⟩⟩ (Or.inl (by simp))).1

/-! ## C2 — positions and the world bounds -/

theorem inBounds_of_eq {q : Player} {a b : ℝ} (hx : q.x = a) (hy : q.y = b)
    (h0a : 0 ≤ a) (haW : a ≤ W) (h0b : 0 ≤ b) (hbH : b ≤ H) : inBounds q :=
  ⟨by rw [hx]; exact h0a, by rw [hx]; exact haW,
   by rw [hy]; exact h0b, by rw [hy]; exact hbH⟩

theorem inputStep_inBounds (keys : Keys) (dt : Option ℝ) (p : Player) :
    inBounds (inputStep keys dt p) :=
  ⟨le_clamp _ _ _, clamp_le _ (by norm_num [W]),
   le_clamp _ _ _, clamp_le _ (by norm_num [H])⟩

theorem tapMoveStep_inBounds {x y : ℝ} {p : Player} (hp : inBounds p)
    (hx0 : 0 ≤ x) (hxW : x ≤ W) (hy0 : 0 ≤ y) (hyH : y ≤ H) :
    inBounds (tapMoveStep x y p) := by
  simp only [tapMoveStep]
  split_ifs with hd
  · obtain ⟨hpx0, hpxW, hpy0, hpyH⟩ := hp
    have hf0 : 0 ≤ min 1 (40 / hypot (x - p.x) (y - p.y)) :=
      le_min (by norm_num) (div_nonneg (by norm_num) (le_of_lt hd))
    have hf1 : min 1 (40 / hypot (x - p.x) (y - p.y)) ≤ 1 := min_le_left _ _
    refine ⟨?_, ?_, ?_, ?_⟩
    · show 0 ≤ p.x + (x - p.x) * min 1 (40 / hypot (x - p.x) (y - p.y))
      nlinarith
    · show p.x + (x - p.x) * min 1 (40 / hypot (x - p.x) (y - p.y)) ≤ W
      nlinarith
    · show 0 ≤ p.y + (y - p.y) * min 1 (40 / hypot (x - p.x) (y - p.y))
      nlinarith
    · show p.y + (y - p.y) * min 1 (40 / hypot (x - p.x) (y - p.y)) ≤ H
      nlinarith
  · exact hp

theorem resolveHit_pos (rx ry : ℝ) (a v : Player) :
    ((resolveHit rx ry a v).1.x = a.x ∧ (resolveHit rx ry a v).1.y = a.y) ∧
    (((resolveHit rx ry a v).2.x = v.x ∧ (resolveHit rx ry a v).2.y = v.y) ∨
      ((resolveHit rx ry a v).2.x = rx * W ∧
        (resolveHit rx ry a v).2.y = ry * H)) := by
  simp only [resolveHit]
  split_ifs
  · exact ⟨⟨rfl, rfl⟩, Or.inr ⟨rfl, rfl⟩⟩
  · exact ⟨⟨rfl, rfl⟩, Or.inl ⟨rfl, rfl⟩⟩

theorem placeStep_players_cases (newId : String) (s : GameState) (p : Player)
    (kind : Option String) (x y : Option ℝ) :
    (placeStep newId s p kind x y).players = s.players ∨
    (placeStep newId s p kind x y).players =
      updateById s.players p.id (fun _ =>
        { p with inv :=
            (placeCost kind).foldl (fun i pr => invSub i pr.1 pr.2) p.inv }) := by
  simp only [placeStep]
  by_cases h1 : ∀ pr ∈ placeCost kind, invGet p.inv pr.1 ≥ pr.2
  · by_cases h2 : jgt (jhypot (jsub p.x x) (jsub p.y y)) ACTION_RANGE
    · left; rw [if_pos h1, if_pos h2]
    · right; rw [if_pos h1, if_neg h2]
  · left; rw [if_neg h1]

/-- C2 counterexample: a `tapMove` intent whose tap target lies outside
the world moves an in-bounds player out of bounds — the tap-move branch
performs no clamping. -/
theorem tapmove_out_of_bounds_counterexample :
    inBounds ⟨"p1", "A", 0, 0, 100, 0, ⟨0, 0, 0⟩⟩ ∧
    (handleClientMessage 0 0 0 "b"
        ⟨[⟨"p1", "A", 0, 0, 100, 0, ⟨0, 0, 0⟩⟩], [], []⟩ "p1"
        (ClientMsg.action "tapMove" (-30) 0)).players =
      [⟨"p1", "A", -30, 0, 100, 0, ⟨0, 0, 0⟩⟩] ∧
    ¬ inBounds ⟨"p1", "A", -30, 0, 100, 0, ⟨0, 0, 0⟩⟩ := by
  refine ⟨⟨le_rfl, by norm_num [W], le_rfl, by norm_num [H]⟩, ?_, ?_⟩
  · have hfp : findPlayer [⟨"p1", "A", 0, 0, 100, 0, ⟨0, 0, 0⟩⟩] "p1" =
        some ⟨"p1", "A", 0, 0, 100, 0, ⟨0, 0, 0⟩⟩ := rfl
    have hstep : tapMoveStep (-30) 0 ⟨"p1", "A", 0, 0, 100, 0, ⟨0, 0, 0⟩⟩ =
        ⟨"p1", "A", -30, 0, 100, 0, ⟨0, 0, 0⟩⟩ := by
      have h30 : hypot (-30 : ℝ) 0 = 30 := hypot_eq (by norm_num) (by norm_num)
      have hmin : min (1 : ℝ) (40 / 30) = 1 := min_eq_left (by norm_num)
      simp only [tapMoveStep]
      norm_num [h30, hmin]
    simp [handleClientMessage, hfp, updateById, hstep]
  · intro hb
    exact absurd hb.1 (by norm_num)

/-- C2 (amended): the player positions stay inside `[0,W] × [0,H]` across
every resolved client intent, *provided* the target of every tap-move
intent is itself in bounds (the tap-move branch does not clamp, so an
out-of-bounds tap target can leave the world; all other branches clamp or
relocate in bounds). -/
theorem positions_stay_in_bounds (now rx ry : ℝ) (newId : String)
    (s : GameState) (pid : String) (msg : ClientMsg) (q : Player)
    (hall : ∀ r ∈ s.players, inBounds r)
    (hrx0 : 0 ≤ rx) (hrx1 : rx < 1) (hry0 : 0 ≤ ry) (hry1 : ry < 1)
    (htap : ∀ x y, msg = ClientMsg.action "tapMove" x y →
      0 ≤ x ∧ x ≤ W ∧ 0 ≤ y ∧ y ≤ H)
    (hq : q ∈ (handleClientMessage now rx ry newId s pid msg).players) :
    inBounds q := by
  have hW : (0 : ℝ) < W := by norm_num [W]
  have hH : (0 : ℝ) < H := by norm_num [H]
  revert hq
  cases hfp : findPlayer s.players pid with
  | none =>
    simp only [handleClientMessage, hfp]
    exact hall q
  | some p =>
    have hpin : inBounds p := hall p (findPlayer_some hfp).1
    cases msg with
    | input keys dt =>
      simp only [handleClientMessage, hfp]
      intro hq
      obtain ⟨r, hr, hcase⟩ := mem_updateById hq
      rcases hcase with h | h
      · rw [h]; exact hall r hr
      · rw [h]; exact inputStep_inBounds keys dt r
    | chat t =>
      simp only [handleClientMessage, hfp]
      exact hall q
    | ping =>
      simp only [handleClientMessage, hfp]
      exact hall q
    | setName nm =>
      simp only [handleClientMessage, hfp]
      intro hq
      obtain ⟨r, hr, hcase⟩ := mem_updateById hq
      rcases hcase with h | h
      · rw [h]; exact hall r hr
      · rw [h]
        exact inBounds_of_eq rfl rfl (hall r hr).1 (hall r hr).2.1
          (hall r hr).2.2.1 (hall r hr).2.2.2
    | place kind x y =>
      simp only [handleClientMessage, hfp]
      intro hq
      rcases placeStep_players_cases newId s p kind x y with hpl | hpl
      · rw [hpl] at hq
        exact hall q hq
      · rw [hpl] at hq
        obtain ⟨r, hr, hcase⟩ := mem_updateById hq
        rcases hcase with h | h
        · rw [h]; exact hall r hr
        · rw [h]
          exact inBounds_of_eq rfl rfl hpin.1 hpin.2.1 hpin.2.2.1 hpin.2.2.2
    | action a mx my =>
      by_cases ha : a = "click"
      · simp only [handleClientMessage, hfp, if_pos ha]
        intro hq
        rcases clickStep_cases now rx ry s p mx my with hc |
          ⟨pre, v, post, hsplit, hq', hc⟩ | ⟨pre, n, post, hsplit, hq', hc⟩
        · rw [hc] at hq
          exact hall q hq
        · rw [hc] at hq
          obtain ⟨r, hr, hcase⟩ := mem_updateById hq
          have hvB : inBounds v := hall v (by
            rw [hsplit]
            exact List.mem_append.mpr (Or.inr (List.mem_cons_self _ _)))
          have hrB : inBounds r := by
            rcases List.mem_append.mp hr with h1 | h2
            · exact hall r (by
                rw [hsplit]
                exact List.mem_append.mpr (Or.inl h1))
            · rcases List.mem_cons.mp h2 with rfl | h3
              · rcases (resolveHit_pos rx ry p v).2 with ⟨hx, hy⟩ | ⟨hx, hy⟩
                · exact inBounds_of_eq hx hy hvB.1 hvB.2.1 hvB.2.2.1 hvB.2.2.2
                · exact inBounds_of_eq hx hy (mul_nonneg hrx0 hW.le)
                    (by nlinarith) (mul_nonneg hry0 hH.le) (by nlinarith)
              · exact hall r (by
                  rw [hsplit]
                  exact List.mem_append.mpr
                    (Or.inr (List.mem_cons_of_mem _ h3)))
          rcases hcase with h | h
          · rw [h]; exact hrB
          · rw [h]
            exact inBounds_of_eq (resolveHit_pos rx ry p v).1.1
              (resolveHit_pos rx ry p v).1.2 hpin.1 hpin.2.1
              hpin.2.2.1 hpin.2.2.2
        · rw [hc] at hq
          obtain ⟨r, hr, hcase⟩ := mem_updateById hq
          rcases hcase with h | h
          · rw [h]; exact hall r hr
          · rw [h]
            exact inBounds_of_eq rfl rfl hpin.1 hpin.2.1 hpin.2.2.1 hpin.2.2.2
      · by_cases ha2 : a = "tapMove"
        · simp only [handleClientMessage, hfp, if_neg ha, if_pos ha2]
          intro hq
          obtain ⟨r, hr, hcase⟩ := mem_updateById hq
          rcases hcase with h | h
          · rw [h]; exact hall r hr
          · rw [h]
            have ht := htap mx my (by rw [ha2])
            exact tapMoveStep_inBounds (hall r hr) ht.1 ht.2.1 ht.2.2.1 ht.2.2.2
        · simp only [handleClientMessage, hfp, if_neg ha, if_neg ha2]
          exact hall q

/-- Witness for C2 (amended): a `ping` message leaves the single in-bounds
player in bounds. -/
theorem positions_stay_in_bounds_witness :
    inBounds ⟨"p1", "A", 5, 6, 100, 0, ⟨0, 0, 0⟩⟩ :=
  positions_stay_in_bounds 0 (1/2) (1/2) "b"
    ⟨[⟨"p1", "A", 5, 6, 100, 0, ⟨0, 0, 0⟩⟩], [], []⟩ "p1" ClientMsg.ping
    ⟨"p1", "A", 5, 6, 100, 0, ⟨0, 0, 0⟩⟩
    (by
      intro r hr
      rw [List.mem_singleton] at hr
      subst hr
      exact ⟨by norm_num, by norm_num [W], by norm_num, by norm_num [H]⟩)
    (by norm_num) (by norm_num) (by norm_num) (by norm_num)
    (fun x y h => nomatch h)
    (by
      rw [show handleClientMessage 0 (1/2) (1/2) "b"
          ⟨[⟨"p1", "A", 5, 6, 100, 0, ⟨0, 0, 0⟩⟩], [], []⟩ "p1"
          ClientMsg.ping =
          ⟨[⟨"p1", "A", 5, 6, 100, 0, ⟨0, 0, 0⟩⟩], [], []⟩ from rfl]
      exact List.mem_singleton_self _)

/-! ## C5 — invalid intents and side effects -/

/-- C5 counterexample: a `place` intent with a *missing* `x` field is
semantically invalid, yet it mutates the world: `player.x - undefined` is
`NaN`, `Math.hypot(NaN, …) > ACTION_RANGE` is false, so the range check
is bypassed — the wood is debited and a building with an undefined
coordinate is appended. -/
theorem invalid_place_mutates_counterexample :
    wsMessage 0 0 0 "b9" ⟨[⟨"p1", "A", 0, 0, 100, 0, ⟨5, 0, 0⟩⟩], [], []⟩
        (some "p1") (some (ClientMsg.place (some "wall") none (some 0))) =
      ⟨[⟨"p1", "A", 0, 0, 100, 0, ⟨0, 0, 0⟩⟩], [],
       [⟨"b9", "wall", none, some 0, "p1"⟩]⟩ ∧
    (⟨[⟨"p1", "A", 0, 0, 100, 0, ⟨0, 0, 0⟩⟩], [],
      [⟨"b9", "wall", none, some 0, "p1"⟩]⟩ : GameState) ≠
      ⟨[⟨"p1", "A", 0, 0, 100, 0, ⟨5, 0, 0⟩⟩], [], []⟩ := by
  constructor
  · have hfp : findPlayer [⟨"p1", "A", 0, 0, 100, 0, ⟨5, 0, 0⟩⟩] "p1" =
        some ⟨"p1", "A", 0, 0, 100, 0, ⟨5, 0, 0⟩⟩ := rfl
    have h := (placeStep_spec "b9"
      ⟨[⟨"p1", "A", 0, 0, 100, 0, ⟨5, 0, 0⟩⟩], [], []⟩
      ⟨"p1", "A", 0, 0, 100, 0, ⟨5, 0, 0⟩⟩ (some "wall") none (some 0)).2.2
      (by intro pr hmem; fin_cases hmem; simp [invGet])
      (by simp [jsub, jhypot, jgt])
    simp only [wsMessage, handleClientMessage, hfp]
    rw [h]
    simp [updateById]
  · intro h
    have := congrArg GameState.buildings h
    simp at this

/-- C5 (amended): an unparseable payload, an intent from an unbound or
unknown session, a build with insufficient resources, a numeric build
target out of action range, and a click with no target in range are all
dropped with no state change (the handler is total, so resolution never
crashes); however a `place` intent with a missing coordinate field
bypasses the range check through `NaN` and does mutate state. -/
theorem invalid_intents_dropped (now rx ry : ℝ) (newId : String)
    (s : GameState) :
    (∀ pid : Option String, wsMessage now rx ry newId s pid none = s) ∧
    (∀ msg : ClientMsg, wsMessage now rx ry newId s none (some msg) = s) ∧
    (∀ (pid : String) (msg : ClientMsg), findPlayer s.players pid = none →
      wsMessage now rx ry newId s (some pid) (some msg) = s) ∧
    (∀ (pid : String) (p : Player) (kind : Option String) (x y : Option ℝ),
      findPlayer s.players pid = some p →
      (∃ pr ∈ placeCost kind, invGet p.inv pr.1 < pr.2) →
      wsMessage now rx ry newId s (some pid)
        (some (ClientMsg.place kind x y)) = s) ∧
    (∀ (pid : String) (p : Player) (kind : Option String) (x y : ℝ),
      findPlayer s.players pid = some p →
      hypot (p.x - x) (p.y - y) > ACTION_RANGE →
      wsMessage now rx ry newId s (some pid)
        (some (ClientMsg.place kind (some x) (some y))) = s) ∧
    (∀ (pid : String) (p : Player) (mx my : ℝ),
      findPlayer s.players pid = some p →
      (∀ q ∈ s.players, ¬ attackQual p.id mx my q) →
      (∀ m ∈ s.nodes, ¬ nodeQual p mx my m) →
      wsMessage now rx ry newId s (some pid)
        (some (ClientMsg.action "click" mx my)) = s) := by
  refine ⟨fun pid => rfl, fun msg => rfl, ?_, ?_, ?_, ?_⟩
  · intro pid msg h
    simp only [wsMessage, handleClientMessage, h]
  · intro pid p kind x y hfp hins
    simp only [wsMessage, handleClientMessage, hfp]
    exact (placeStep_spec newId s p kind x y).1 hins
  · intro pid p kind x y hfp hgt
    simp only [wsMessage, handleClientMessage, hfp]
    exact (placeStep_spec newId s p kind (some x) (some y)).2.1
      (by simpa [jsub, jhypot, jgt] using hgt)
  · intro pid p mx my hfp hnoP hnoN
    simp only [wsMessage, handleClientMessage, hfp,
      if_pos (rfl : ("click" : String) = "click")]
    exact clickStep_miss now rx ry s p mx my hnoP hnoN

/-- Witness for C5 (amended): a chat intent from an unknown session id on
an empty world changes nothing. -/
theorem invalid_intents_dropped_witness :
    wsMessage 0 0 0 "b" ⟨[], [], []⟩ (some "p9")
        (some (ClientMsg.chat "hi")) = ⟨[], [], []⟩ :=
  (invalid_intents_dropped 0 0 0 "b" ⟨[], [], []⟩).2.2.1 "p9"
    (ClientMsg.chat "hi") rfl

end Moo
